import Mathlib

/-!
Verification of the geometric image-fit engine of `image-lora-prep`.

The definitions below are a shallow embedding of `src/func/resize.py` and
`src/func/io_utils.py`.  Images are represented by their pixel dimensions
(width, height); Python floats are modelled by exact rationals, Python's
`round` (banker's rounding) by `pyRound`, and Python's integer floor
division `// 2` by `Int` division by `2` (which rounds toward negative
infinity, as `//` does).  Functions that may execute Python's
`return image` statement (handing the caller the input object itself)
return an `Option`: `none` is that path, `some _` is a newly built image.
-/

namespace ImageLoraPrep

/-- Python 3 `round` on an exact rational: round half to even. -/
def pyRound (q : ℚ) : ℤ :=
  if q - ⌊q⌋ < 1/2 then ⌊q⌋
  else if 1/2 < q - ⌊q⌋ then ⌊q⌋ + 1
  else if 2 ∣ ⌊q⌋ then ⌊q⌋ else ⌊q⌋ + 1

theorem floor_le_pyRound (q : ℚ) : ⌊q⌋ ≤ pyRound q := by
  unfold pyRound; split_ifs <;> omega

theorem pyRound_le_floor_add_one (q : ℚ) : pyRound q ≤ ⌊q⌋ + 1 := by
  unfold pyRound; split_ifs <;> omega

theorem pyRound_intCast (n : ℤ) : pyRound (n : ℚ) = n := by
  unfold pyRound
  rw [Int.floor_intCast]
  simp

theorem pyRound_le_of_le {q : ℚ} {n : ℤ} (h : q ≤ (n : ℚ)) : pyRound q ≤ n := by
  have hfl : ⌊q⌋ ≤ ⌊(n : ℚ)⌋ := Int.floor_mono h
  rw [Int.floor_intCast] at hfl
  rcases lt_or_eq_of_le hfl with h1 | h1
  · have := pyRound_le_floor_add_one q
    omega
  · have hq : q = (n : ℚ) := by
      refine le_antisymm h ?_
      calc (n : ℚ) = (⌊q⌋ : ℚ) := by exact_mod_cast h1.symm
        _ ≤ q := Int.floor_le q
    rw [hq, pyRound_intCast]

theorem le_pyRound_of_le {q : ℚ} {n : ℤ} (h : (n : ℚ) ≤ q) : n ≤ pyRound q := by
  have hfl : n ≤ ⌊q⌋ := Int.le_floor.mpr h
  have := floor_le_pyRound q
  omega

theorem one_le_pyRound {q : ℚ} (h : 1/2 < q) : 1 ≤ pyRound q := by
  have h0 : (0 : ℤ) ≤ ⌊q⌋ := Int.le_floor.mpr (by push_cast; linarith)
  rcases lt_or_eq_of_le h0 with h1 | h1
  · have := floor_le_pyRound q
    omega
  · have hfl : (⌊q⌋ : ℚ) = 0 := by exact_mod_cast h1.symm
    unfold pyRound
    rw [if_neg (by rw [hfl]; linarith), if_pos (by rw [hfl]; linarith)]
    omega

theorem abs_pyRound_sub_le (q : ℚ) : |((pyRound q : ℤ) : ℚ) - q| ≤ 1/2 := by
  have h0 : (⌊q⌋ : ℚ) ≤ q := Int.floor_le q
  have h1 : q < ⌊q⌋ + 1 := Int.lt_floor_add_one q
  unfold pyRound
  split_ifs with ha hb hc <;>
    (rw [abs_le]; push_cast; constructor <;> linarith)

theorem pyRound_nonpos {q : ℚ} (h : q ≤ 0) : pyRound q ≤ 0 :=
  pyRound_le_of_le (by exact_mod_cast h)

/-- Division of a nonnegative integer by two stays within `[0, t]`.
`Int` division by the positive literal `2` rounds toward negative infinity,
so it models Python `t // 2` exactly. -/
theorem div_two_bounds {t : ℤ} (ht : 0 ≤ t) : 0 ≤ t / 2 ∧ t / 2 ≤ t := by
  omega

/-- Tolerance used by the source for float comparisons (`1e-6`). -/
def TOL : ℚ := 1/1000000

/-- `config.Constraints`: optional sizing constraints (`config.py`). -/
structure Constraints where
  min_width : Option ℕ
  min_height : Option ℕ
  max_width : Option ℕ
  max_height : Option ℕ
  allow_upscale : Bool

/-- Python truthiness of an optional int: `None` and `0` are falsy. -/
def truthy (o : Option ℕ) : Bool :=
  match o with
  | none => false
  | some v => v != 0

/-- Python `o or d` for an optional int `o` and int default `d`. -/
def orDefault (o : Option ℕ) (d : ℕ) : ℕ :=
  match o with
  | none => d
  | some v => if v = 0 then d else v

/-- Pillow resampling constants (`PIL.Image`). -/
def NEAREST : ℕ := 0

/-- Pillow resampling constant for Lanczos. -/
def LANCZOS : ℕ := 1

/-- Pillow resampling constant for bilinear interpolation. -/
def BILINEAR : ℕ := 2

/-- Pillow resampling constant for bicubic interpolation. -/
def BICUBIC : ℕ := 3

/-- Python `str.lower()` restricted to its ASCII action (every resample
name the program compares against is ASCII). -/
def pyLower (s : String) : String := String.mk (s.data.map Char.toLower)

/-- `map_resample` from `src/func/io_utils.py`: map a resample name (possibly
`None`, coerced by `(name or "")`) to a Pillow constant, falling back to
Lanczos for anything unrecognized. -/
def map_resample (name : Option String) : ℕ :=
  let lower := pyLower (name.getD "")
  if lower = "nearest" then NEAREST
  else if lower = "bilinear" then BILINEAR
  else if lower = "bicubic" then BICUBIC
  else LANCZOS

/-- `center_crop_to_aspect` from `src/func/resize.py`, on an image of size
`w × h` with target aspect `a`.  `none` models the `return image` statement
(the input object is handed back); `some (x0, y0, x1, y1)` models
`image.crop(box)` with the computed box. -/
def center_crop_to_aspect (w h : ℕ) (a : ℚ) : Option (ℤ × ℤ × ℤ × ℤ) :=
  let current : ℚ := (w : ℚ) / (h : ℚ)
  if |current - a| < TOL then none
  else if a < current then
    let nw : ℤ := pyRound ((h : ℚ) * a)
    let x0 : ℤ := ((w : ℤ) - nw) / 2
    some (x0, 0, x0 + nw, (h : ℤ))
  else
    let nh : ℤ := pyRound ((w : ℚ) / a)
    let y0 : ℤ := ((h : ℤ) - nh) / 2
    some (0, y0, (w : ℤ), y0 + nh)

/-- Output dimensions of `center_crop_to_aspect` (a crop of box
`(x0, y0, x1, y1)` has size `(x1 - x0, y1 - y0)`). -/
def center_crop_dims (w h : ℕ) (a : ℚ) : ℤ × ℤ :=
  match center_crop_to_aspect w h a with
  | none => ((w : ℤ), (h : ℤ))
  | some (x0, y0, x1, y1) => (x1 - x0, y1 - y0)

/-- `resize_to_exact` from `src/func/resize.py`: the image is resized to
exactly `size` with the mapped resample constant; the source performs no
validation of `size`, it is passed straight to `PIL.Image.resize`. -/
def resize_to_exact (w h : ℕ) (size : ℤ × ℤ) (resample : Option String) :
    (ℤ × ℤ) × ℕ :=
  (size, map_resample resample)

/-- The clamped scale after the upper-bound block of `resize_within_bounds`
(`scale = 1.0` then `scale = min(scale, scale_down)` when a max bound is
truthy). -/
def scale_down_clamped (w h : ℕ) (c : Constraints) : ℚ :=
  if truthy c.max_width || truthy c.max_height then
    min 1 (min ((orDefault c.max_width w : ℚ) / (w : ℚ))
        ((orDefault c.max_height h : ℚ) / (h : ℚ)))
  else 1

/-- The final scale of `resize_within_bounds`: the lower-bound block raises
the scale to `max(min_w/width, min_h/height)` when upscaling is allowed and
a min bound is truthy. -/
def scaleFor (w h : ℕ) (c : Constraints) : ℚ :=
  if c.allow_upscale && (truthy c.min_width || truthy c.min_height) then
    max (scale_down_clamped w h c)
      (max ((orDefault c.min_width w : ℚ) / (w : ℚ))
        ((orDefault c.min_height h : ℚ) / (h : ℚ)))
  else scale_down_clamped w h c

/-- `resize_within_bounds` from `src/func/resize.py`.  `none` models the
`return image` statement taken when the scale is within `1e-6` of `1.0`;
`some (nw, nh)` models `image.resize(new_size)` with
`new_size = (max(1, round(w*scale)), max(1, round(h*scale)))`. -/
def resize_within_bounds (w h : ℕ) (c : Constraints) : Option (ℤ × ℤ) :=
  let scale := scaleFor w h c
  if |scale - 1| < TOL then none
  else some (max 1 (pyRound ((w : ℚ) * scale)), max 1 (pyRound ((h : ℚ) * scale)))

/-- Output dimensions of `resize_within_bounds`. -/
def resize_within_bounds_dims (w h : ℕ) (c : Constraints) : ℤ × ℤ :=
  match resize_within_bounds w h c with
  | none => ((w : ℤ), (h : ℤ))
  | some s => s

/-- Size produced by `PIL.Image.thumbnail((W, H))` on a `w × h` image, as
implemented by the Pillow library (external to this repository): if the box
already covers the image nothing changes (a thumbnail never enlarges);
otherwise the constraining dimension is set to the box and the other is the
floor or ceiling of the exact aspect-preserving value, whichever yields the
closer aspect ratio (floor on ties), and at least 1. -/
def thumbnail (w h W H : ℕ) : ℤ × ℤ :=
  if W ≥ w ∧ H ≥ h then ((w : ℤ), (h : ℤ))
  else
    let aspect : ℚ := (w : ℚ) / (h : ℚ)
    if aspect ≤ (W : ℚ) / (H : ℚ) then
      let q : ℚ := (H : ℚ) * aspect
      let keyF : ℚ := |aspect - (⌊q⌋ : ℚ) / (H : ℚ)|
      let keyC : ℚ := |aspect - (⌈q⌉ : ℚ) / (H : ℚ)|
      (max (if keyF ≤ keyC then ⌊q⌋ else ⌈q⌉) 1, (H : ℤ))
    else
      let q : ℚ := (W : ℚ) / aspect
      let keyF : ℚ := if ⌊q⌋ = 0 then 0 else |aspect - (W : ℚ) / (⌊q⌋ : ℚ)|
      let keyC : ℚ := if ⌈q⌉ = 0 then 0 else |aspect - (W : ℚ) / (⌈q⌉ : ℚ)|
      ((W : ℤ), max (if keyF ≤ keyC then ⌊q⌋ else ⌈q⌉) 1)

/-- Result of `letterbox_to_aspect`: a freshly allocated canvas of the
target size filled with `fill`, with the thumbnailed source pasted at
`(x, y)`. -/
structure Letterboxed where
  canvas_w : ℤ
  canvas_h : ℤ
  scaled_w : ℤ
  scaled_h : ℤ
  x : ℤ
  y : ℤ
  fill : ℤ × ℤ × ℤ

/-- `letterbox_to_aspect` from `src/func/resize.py`: copy the image,
shrink it into the target box with `thumbnail`, create a canvas of the
target size filled with `fill`, and paste the shrunk image centered at
`x = (target_w - img.width) // 2`, `y = (target_h - img.height) // 2`. -/
def letterbox_to_aspect (w h W H : ℕ) (fill : ℤ × ℤ × ℤ) : Letterboxed :=
  let s := thumbnail w h W H
  { canvas_w := (W : ℤ), canvas_h := (H : ℤ), scaled_w := s.1, scaled_h := s.2,
    x := ((W : ℤ) - s.1) / 2, y := ((H : ℤ) - s.2) / 2, fill := fill }

theorem pyRound_eq_of_lt_half {q : ℚ} {n : ℤ} (h1 : (n : ℚ) ≤ q)
    (h2 : q < (n : ℚ) + 1/2) : pyRound q = n := by
  have hfl : ⌊q⌋ = n := Int.floor_eq_iff.mpr ⟨h1, by linarith⟩
  unfold pyRound
  rw [hfl, if_pos (by linarith)]

theorem pyRound_eq_of_half_lt {q : ℚ} {n : ℤ} (h1 : (n : ℚ) + 1/2 < q)
    (h2 : q < (n : ℚ) + 1) : pyRound q = n + 1 := by
  have hfl : ⌊q⌋ = n := Int.floor_eq_iff.mpr ⟨by linarith, by linarith⟩
  unfold pyRound
  rw [hfl, if_neg (by linarith), if_pos (by linarith)]

theorem pyRound_natCast (n : ℕ) : pyRound ((n : ℕ) : ℚ) = (n : ℤ) := by
  rw [show ((n : ℕ) : ℚ) = (((n : ℤ) : ℤ) : ℚ) by push_cast; ring]
  exact pyRound_intCast (n : ℤ)

theorem center_crop_none_iff (w h : ℕ) (a : ℚ) :
    center_crop_to_aspect w h a = none ↔ |(w : ℚ) / (h : ℚ) - a| < TOL := by
  simp only [center_crop_to_aspect]
  split_ifs with h1 h2 <;> simp_all

theorem center_crop_wide {w h : ℕ} {a : ℚ}
    (h1 : ¬ |(w : ℚ) / (h : ℚ) - a| < TOL) (h2 : a < (w : ℚ) / (h : ℚ)) :
    center_crop_to_aspect w h a =
      some (((w : ℤ) - pyRound ((h : ℚ) * a)) / 2, 0,
        ((w : ℤ) - pyRound ((h : ℚ) * a)) / 2 + pyRound ((h : ℚ) * a), (h : ℤ)) := by
  unfold center_crop_to_aspect
  rw [if_neg h1, if_pos h2]

theorem center_crop_tall {w h : ℕ} {a : ℚ}
    (h1 : ¬ |(w : ℚ) / (h : ℚ) - a| < TOL) (h2 : ¬ a < (w : ℚ) / (h : ℚ)) :
    center_crop_to_aspect w h a =
      some (0, ((h : ℤ) - pyRound ((w : ℚ) / a)) / 2, (w : ℤ),
        ((h : ℤ) - pyRound ((w : ℚ) / a)) / 2 + pyRound ((w : ℚ) / a)) := by
  unfold center_crop_to_aspect
  rw [if_neg h1, if_neg h2]

theorem resize_within_bounds_none_iff (w h : ℕ) (c : Constraints) :
    resize_within_bounds w h c = none ↔ |scaleFor w h c - 1| < TOL := by
  simp only [resize_within_bounds]
  split_ifs with h1 <;> simp_all

theorem resize_within_bounds_some {w h : ℕ} {c : Constraints}
    (h1 : ¬ |scaleFor w h c - 1| < TOL) :
    resize_within_bounds w h c =
      some (max 1 (pyRound ((w : ℚ) * scaleFor w h c)),
        max 1 (pyRound ((h : ℚ) * scaleFor w h c))) := by
  unfold resize_within_bounds
  rw [if_neg h1]

theorem scale_down_clamped_le_one (w h : ℕ) (c : Constraints) :
    scale_down_clamped w h c ≤ 1 := by
  unfold scale_down_clamped
  split_ifs with h1
  · exact min_le_left _ _
  · exact le_refl 1

theorem scaleFor_of_no_upscale {w h : ℕ} {c : Constraints}
    (hc : c.allow_upscale = false) : scaleFor w h c = scale_down_clamped w h c := by
  unfold scaleFor
  rw [hc]
  simp

theorem scale_down_clamped_le_max {w h M : ℕ} {c : Constraints}
    (hM : c.max_width = some M) (hM0 : 0 < M) :
    scale_down_clamped w h c ≤ (M : ℚ) / (w : ℚ) := by
  have ht : truthy c.max_width = true := by
    rw [hM]; simp [truthy, hM0.ne']
  have ho : orDefault c.max_width w = M := by
    rw [hM]; simp [orDefault, hM0.ne']
  unfold scale_down_clamped
  rw [ht, ho]
  simp only [Bool.true_or, if_true]
  calc min 1 (min ((M : ℚ) / (w : ℚ)) ((orDefault c.max_height h : ℚ) / (h : ℚ)))
      ≤ min ((M : ℚ) / (w : ℚ)) ((orDefault c.max_height h : ℚ) / (h : ℚ)) :=
        min_le_right _ _
    _ ≤ (M : ℚ) / (w : ℚ) := min_le_left _ _

/-- C10: `map_resample` is total and never raises: it returns the constant
for nearest, bilinear or bicubic exactly when the lowercased name matches,
and silently returns the Lanczos constant for every other input (including
`None` and misspelled names); `resize_to_exact` threads the mapped constant
through, so an unrecognized resample argument is treated as Lanczos rather
than rejected. -/
theorem map_resample_total_fallback (s : Option String) :
    (pyLower (s.getD "") = "nearest" → map_resample s = NEAREST) ∧
    (pyLower (s.getD "") = "bilinear" → map_resample s = BILINEAR) ∧
    (pyLower (s.getD "") = "bicubic" → map_resample s = BICUBIC) ∧
    (pyLower (s.getD "") ≠ "nearest" → pyLower (s.getD "") ≠ "bilinear" →
      pyLower (s.getD "") ≠ "bicubic" → map_resample s = LANCZOS) ∧
    (resize_to_exact 1 1 (1, 1) s).2 = map_resample s := by
  simp only [map_resample, resize_to_exact]
  split_ifs with h1 h2 h3 <;>
    refine ⟨?_, ?_, ?_, fun _ _ _ => ?_, trivial⟩ <;> intros <;> simp_all

/-- Witness for C10: a misspelled method name silently maps to Lanczos. -/
theorem map_resample_total_fallback_witness :
    map_resample (some "Lanczoss") = LANCZOS :=
  (map_resample_total_fallback (some "Lanczoss")).2.2.2.1
    (by decide) (by decide) (by decide)

/-- C8: an image whose aspect ratio is already within the 1e-6 tolerance of
the target aspect is returned unchanged by `center_crop_to_aspect` (the
`return image` path, so applying the operation twice equals applying it
once). -/
theorem center_crop_idempotent_on_matching (w h : ℕ) (a : ℚ)
    (htol : |(w : ℚ) / (h : ℚ) - a| < TOL) :
    center_crop_to_aspect w h a = none ∧
    center_crop_dims w h a = ((w : ℤ), (h : ℤ)) := by
  have h1 : center_crop_to_aspect w h a = none :=
    (center_crop_none_iff w h a).mpr htol
  refine ⟨h1, ?_⟩
  unfold center_crop_dims
  rw [h1]

/-- Witness for C8 at a 100 × 100 image with target aspect 1. -/
theorem center_crop_idempotent_on_matching_witness :
    center_crop_to_aspect 100 100 1 = none ∧
    center_crop_dims 100 100 1 = ((100 : ℤ), (100 : ℤ)) :=
  center_crop_idempotent_on_matching 100 100 1 (by norm_num [TOL])

/-- C6: when the source aspect exceeds the target aspect by at least the
1e-6 tolerance, the crop box is
`(x0, 0, x0 + round(h*a), h)` with `x0 = (w - round(h*a)) // 2`; in
particular a 2000 × 1000 source with target aspect 1 is cropped to box
`(500, 0, 1500, 1000)`, a 1000 × 1000 output. -/
theorem center_crop_wide_branch_formula (w h : ℕ) (a : ℚ)
    (hx : a + TOL ≤ (w : ℚ) / (h : ℚ)) :
    center_crop_to_aspect w h a =
      some (((w : ℤ) - pyRound ((h : ℚ) * a)) / 2, 0,
        ((w : ℤ) - pyRound ((h : ℚ) * a)) / 2 + pyRound ((h : ℚ) * a), (h : ℤ)) ∧
    center_crop_to_aspect 2000 1000 1 = some (500, 0, 1500, 1000) ∧
    center_crop_dims 2000 1000 1 = (1000, 1000) := by
  have htolpos : (0 : ℚ) < TOL := by norm_num [TOL]
  have h1 : ¬ |(w : ℚ) / (h : ℚ) - a| < TOL := by
    rw [not_lt, le_abs]
    left
    linarith
  have h2 : a < (w : ℚ) / (h : ℚ) := by linarith
  refine ⟨center_crop_wide h1 h2, ?_⟩
  have hr : pyRound (((1000 : ℕ) : ℚ) * 1) = 1000 := by
    rw [show (((1000 : ℕ) : ℚ)) * 1 = ((1000 : ℤ) : ℚ) by push_cast; ring]
    exact pyRound_intCast 1000
  have hcw : ¬ |((2000 : ℕ) : ℚ) / ((1000 : ℕ) : ℚ) - (1 : ℚ)| < TOL := by
    push_cast
    norm_num [TOL, abs_sub_lt_iff]
  have hca : (1 : ℚ) < ((2000 : ℕ) : ℚ) / ((1000 : ℕ) : ℚ) := by
    push_cast
    norm_num
  have hc := center_crop_wide hcw hca
  rw [hr] at hc
  have hbox : center_crop_to_aspect 2000 1000 1 = some (500, 0, 1500, 1000) := by
    rw [hc]
    norm_num
  refine ⟨hbox, ?_⟩
  unfold center_crop_dims
  rw [hbox]
  decide

/-- Witness for C6 at the concrete 2000 × 1000 scenario. -/
theorem center_crop_wide_branch_formula_witness :
    center_crop_to_aspect 2000 1000 1 = some (500, 0, 1500, 1000) ∧
    center_crop_dims 2000 1000 1 = (1000, 1000) :=
  (center_crop_wide_branch_formula 2000 1000 1 (by norm_num [TOL])).2

/-- C1 (failing input): with `max_width=400`, `min_width=800`,
`allow_upscale=True` on a 2000 × 1000 source, the unset `min_height`
defaults to the source height, making `scale_up = max(800/2000, 1000/1000)
= 1.0`; the final scale is `max(0.2, 1.0) = 1.0`, so the image is returned
unchanged at 2000 × 1000 instead of being scaled by the min-derived factor
`800/2000` to 800 × 400. -/
theorem resize_within_bounds_min_conflict_unchanged :
    scaleFor 2000 1000 ⟨some 800, none, some 400, none, true⟩ = 1 ∧
    resize_within_bounds 2000 1000 ⟨some 800, none, some 400, none, true⟩ = none ∧
    resize_within_bounds_dims 2000 1000 ⟨some 800, none, some 400, none, true⟩ =
      (2000, 1000) := by
  have hs : scaleFor 2000 1000 ⟨some 800, none, some 400, none, true⟩ = 1 := by
    simp only [scaleFor, scale_down_clamped, truthy, orDefault]
    norm_num [min_def, max_def]
  have h1 : resize_within_bounds 2000 1000 ⟨some 800, none, some 400, none, true⟩ =
      none := by
    refine (resize_within_bounds_none_iff _ _ _).mpr ?_
    rw [hs]
    norm_num [TOL]
  refine ⟨hs, h1, ?_⟩
  unfold resize_within_bounds_dims
  rw [h1]
  decide

/-- C9 (amended): each engine operation either returns the input image
object itself (the `none` path, taken exactly when the 1e-6 no-op tolerance
fires) or builds a new image; `resize_to_exact` and `letterbox_to_aspect`
always build a new image, and no operation mutates the input. -/
theorem engine_return_paths (w h W H : ℕ) (a : ℚ) (c : Constraints)
    (size : ℤ × ℤ) (rs : Option String) (fill : ℤ × ℤ × ℤ) :
    (center_crop_to_aspect w h a = none ↔ |(w : ℚ) / (h : ℚ) - a| < TOL) ∧
    (resize_within_bounds w h c = none ↔ |scaleFor w h c - 1| < TOL) ∧
    (resize_to_exact w h size rs).1 = size ∧
    (letterbox_to_aspect w h W H fill).canvas_w = (W : ℤ) ∧
    (letterbox_to_aspect w h W H fill).canvas_h = (H : ℤ) ∧
    (letterbox_to_aspect w h W H fill).fill = fill :=
  ⟨center_crop_none_iff w h a, resize_within_bounds_none_iff w h c,
    rfl, rfl, rfl, rfl⟩

/-- Counterexample to C9 as stated: on a 640 × 480 source that already has
the target aspect 4/3 (resp. already satisfies the constraints), the engine
returns the input object itself, not a distinct image. -/
theorem center_crop_returns_input_object :
    center_crop_to_aspect 640 480 (4/3) = none ∧
    resize_within_bounds 640 480 ⟨none, none, none, none, false⟩ = none := by
  constructor
  · refine (center_crop_none_iff _ _ _).mpr ?_
    push_cast
    norm_num [TOL]
  · refine (resize_within_bounds_none_iff _ _ _).mpr ?_
    have hs : scaleFor 640 480 ⟨none, none, none, none, false⟩ = 1 := by
      simp [scaleFor, scale_down_clamped, truthy]
    rw [hs]
    norm_num [TOL]

/-- C2 (amended): with `allow_upscale` false, `resize_within_bounds` never
returns an image larger than the source in either dimension; and with
`max_width = M` set, the returned width is at most `M` provided the
required downscale factor is at least the 1e-6 tolerance away from 1
(`1000000 * M ≤ 999999 * w`); without that margin the no-op tolerance
branch may return the oversized source unchanged. -/
theorem resize_within_bounds_no_upscale_max (w h : ℕ) (c : Constraints)
    (hw : 0 < w) (hh : 0 < h) (hc : c.allow_upscale = false) :
    (resize_within_bounds_dims w h c).1 ≤ (w : ℤ) ∧
    (resize_within_bounds_dims w h c).2 ≤ (h : ℤ) ∧
    ∀ M : ℕ, c.max_width = some M → 0 < M →
      (1000000 : ℚ) * (M : ℚ) ≤ (999999 : ℚ) * (w : ℚ) →
      (resize_within_bounds_dims w h c).1 ≤ (M : ℤ) := by
  have hw' : (0 : ℚ) < (w : ℚ) := by exact_mod_cast hw
  have hh' : (0 : ℚ) < (h : ℚ) := by exact_mod_cast hh
  have hs1 : scaleFor w h c ≤ 1 := by
    rw [scaleFor_of_no_upscale hc]
    exact scale_down_clamped_le_one w h c
  have key : ∀ M : ℕ, c.max_width = some M → 0 < M →
      (1000000 : ℚ) * (M : ℚ) ≤ (999999 : ℚ) * (w : ℚ) →
      scaleFor w h c ≤ (M : ℚ) / (w : ℚ) ∧ (M : ℚ) / (w : ℚ) ≤ 1 - TOL := by
    intro M hM hM0 hMw
    constructor
    · rw [scaleFor_of_no_upscale hc]
      exact scale_down_clamped_le_max hM hM0
    · rw [div_le_iff hw']
      norm_num [TOL]
      linarith
  by_cases htol : |scaleFor w h c - 1| < TOL
  · have hnone : resize_within_bounds w h c = none :=
      (resize_within_bounds_none_iff w h c).mpr htol
    have hd : resize_within_bounds_dims w h c = ((w : ℤ), (h : ℤ)) := by
      unfold resize_within_bounds_dims
      rw [hnone]
    rw [hd]
    refine ⟨le_refl _, le_refl _, ?_⟩
    intro M hM hM0 hMw
    exfalso
    obtain ⟨k1, k2⟩ := key M hM hM0 hMw
    rw [abs_sub_comm, abs_of_nonneg (by linarith)] at htol
    linarith
  · have hsome := resize_within_bounds_some htol
    have hd : resize_within_bounds_dims w h c =
        (max 1 (pyRound ((w : ℚ) * scaleFor w h c)),
          max 1 (pyRound ((h : ℚ) * scaleFor w h c))) := by
      unfold resize_within_bounds_dims
      rw [hsome]
    rw [hd]
    have hwle : pyRound ((w : ℚ) * scaleFor w h c) ≤ (w : ℤ) :=
      pyRound_le_of_le (by
        push_cast
        nlinarith)
    have hhle : pyRound ((h : ℚ) * scaleFor w h c) ≤ (h : ℤ) :=
      pyRound_le_of_le (by
        push_cast
        nlinarith)
    refine ⟨max_le (by exact_mod_cast hw) hwle, max_le (by exact_mod_cast hh) hhle, ?_⟩
    intro M hM hM0 hMw
    obtain ⟨k1, k2⟩ := key M hM hM0 hMw
    have hmul : (w : ℚ) * scaleFor w h c ≤ (M : ℚ) := by
      calc (w : ℚ) * scaleFor w h c ≤ (w : ℚ) * ((M : ℚ) / (w : ℚ)) := by
            exact mul_le_mul_of_nonneg_left k1 (le_of_lt hw')
        _ = (M : ℚ) := by field_simp
    exact max_le (by exact_mod_cast hM0) (pyRound_le_of_le (by push_cast at hmul ⊢; linarith))

/-- Witness for C2 at an 800 × 600 source with `max_width = 400` and
upscaling disabled: the output fits in the source and in the max bound. -/
theorem resize_within_bounds_no_upscale_max_witness :
    (resize_within_bounds_dims 800 600 ⟨none, none, some 400, none, false⟩).1 ≤
      ((800 : ℕ) : ℤ) ∧
    (resize_within_bounds_dims 800 600 ⟨none, none, some 400, none, false⟩).1 ≤
      ((400 : ℕ) : ℤ) := by
  have h := resize_within_bounds_no_upscale_max 800 600
    ⟨none, none, some 400, none, false⟩ (by norm_num) (by norm_num) rfl
  exact ⟨h.1, h.2.2 400 rfl (by norm_num) (by push_cast; norm_num)⟩

/-- Counterexample to C2 as stated: `max_width = 1999999` is set and the
source is 2000000 wide, yet the required scale `1999999/2000000` is within
1e-6 of 1, so the no-op branch returns the source unchanged with width
2000000 > 1999999. -/
theorem resize_within_bounds_max_violated :
    resize_within_bounds_dims 2000000 1000 ⟨none, none, some 1999999, none, false⟩ =
      (2000000, 1000) ∧ (1999999 : ℤ) < 2000000 := by
  have hs : scaleFor 2000000 1000 ⟨none, none, some 1999999, none, false⟩ =
      1999999/2000000 := by
    simp only [scaleFor, scale_down_clamped, truthy, orDefault]
    norm_num [min_def]
  have h1 : resize_within_bounds 2000000 1000
      ⟨none, none, some 1999999, none, false⟩ = none := by
    refine (resize_within_bounds_none_iff _ _ _).mpr ?_
    rw [hs]
    norm_num [TOL, abs_lt]
  constructor
  · unfold resize_within_bounds_dims
    rw [h1]
    decide
  · decide

/-- C4 (amended): neither function validates its numeric inputs. With a
non-positive target aspect (and an aspect gap past the tolerance, e.g. any
height up to 10^6), `center_crop_to_aspect` proceeds to compute a
degenerate crop box whose right edge is at or left of its left edge, and
`resize_to_exact` passes any target size straight through to the imaging
library. -/
theorem no_input_validation (w h : ℕ) (a : ℚ) (size : ℤ × ℤ)
    (hw : 0 < w) (hh : 0 < h) (hmax : h ≤ 1000000) (ha : a ≤ 0) :
    center_crop_to_aspect w h a =
      some (((w : ℤ) - pyRound ((h : ℚ) * a)) / 2, 0,
        ((w : ℤ) - pyRound ((h : ℚ) * a)) / 2 + pyRound ((h : ℚ) * a), (h : ℤ)) ∧
    pyRound ((h : ℚ) * a) ≤ 0 ∧
    (resize_to_exact w h size none).1 = size := by
  have hw' : (0 : ℚ) < (w : ℚ) := by exact_mod_cast hw
  have hh' : (0 : ℚ) < (h : ℚ) := by exact_mod_cast hh
  have hone : (1 : ℚ) / (h : ℚ) ≤ (w : ℚ) / (h : ℚ) := by
    gcongr
    exact_mod_cast hw
  have htl : TOL ≤ (1 : ℚ) / (h : ℚ) := by
    rw [TOL, div_le_div_iff (by norm_num) hh']
    have : (h : ℚ) ≤ 1000000 := by exact_mod_cast hmax
    linarith
  have h1 : ¬ |(w : ℚ) / (h : ℚ) - a| < TOL := by
    rw [not_lt, le_abs]
    left
    linarith
  have h2 : a < (w : ℚ) / (h : ℚ) := by
    have : (0 : ℚ) < TOL := by norm_num [TOL]
    linarith
  refine ⟨center_crop_wide h1 h2, ?_, rfl⟩
  refine pyRound_nonpos ?_
  calc (h : ℚ) * a ≤ (h : ℚ) * 0 := mul_le_mul_of_nonneg_left ha (le_of_lt hh')
    _ = 0 := by ring

/-- Witness for C4: target aspect −1 on a 100 × 100 image produces the
degenerate box (100, 0, 0, 100) instead of an error, and a degenerate
target size passes through `resize_to_exact`. -/
theorem no_input_validation_witness :
    center_crop_to_aspect 100 100 (-1) = some (100, 0, 0, 100) ∧
    (resize_to_exact 100 100 (5, 5) none).1 = (5, 5) := by
  have h := no_input_validation 100 100 (-1) (5, 5)
    (by norm_num) (by norm_num) (by norm_num) (by norm_num)
  obtain ⟨h1, h2, h3⟩ := h
  refine ⟨?_, h3⟩
  rw [h1]
  have hr : pyRound (((100 : ℕ) : ℚ) * (-1)) = -100 := by
    rw [show (((100 : ℕ) : ℚ)) * (-1) = ((-100 : ℤ) : ℚ) by push_cast; ring]
    exact pyRound_intCast (-100)
  rw [hr]
  decide

/-- Counterexample to C4 as stated: `center_crop_to_aspect` with target
aspect 0 does not raise; it computes the zero-width crop box
(50, 0, 50, 100) and hands it to the imaging library, and `resize_to_exact`
accepts a zero target width. -/
theorem center_crop_degenerate_not_rejected :
    center_crop_to_aspect 100 100 0 = some (50, 0, 50, 100) ∧
    (resize_to_exact 100 100 (0, 400) none).1 = (0, 400) := by
  constructor
  · have h1 : ¬ |((100 : ℕ) : ℚ) / ((100 : ℕ) : ℚ) - 0| < TOL := by
      push_cast
      norm_num [TOL]
    have h2 : (0 : ℚ) < ((100 : ℕ) : ℚ) / ((100 : ℕ) : ℚ) := by
      push_cast
      norm_num
    have hc := center_crop_wide h1 h2
    have hr : pyRound (((100 : ℕ) : ℚ) * 0) = 0 := by
      rw [mul_zero, show (0 : ℚ) = ((0 : ℤ) : ℚ) by norm_num, pyRound_intCast]
    rw [hr] at hc
    rw [hc]
    decide
  · rfl

/-- Well-formedness of the crop computed by `center_crop_to_aspect`: when a
box is produced it is a nonempty sub-rectangle of the source and the
adjusted dimension is within one pixel of the exact aspect target; when the
input is returned unchanged its width is within one pixel of `h * a`. -/
def boxOk (w : ℕ) (h : ℕ) (a : ℚ) (t : ℤ × ℤ × ℤ × ℤ) : Prop :=
  0 ≤ t.1 ∧ t.1 < t.2.2.1 ∧ t.2.2.1 ≤ (w : ℤ) ∧ 0 ≤ t.2.1 ∧ t.2.1 < t.2.2.2 ∧
  t.2.2.2 ≤ (h : ℤ) ∧
  (|((t.2.2.1 - t.1 : ℤ) : ℚ) - ((t.2.2.2 - t.2.1 : ℤ) : ℚ) * a| ≤ 1 ∨
    |((t.2.2.2 - t.2.1 : ℤ) : ℚ) - ((t.2.2.1 - t.1 : ℤ) : ℚ) / a| ≤ 1)

def cropBoxOk (w h : ℕ) (a : ℚ) : Prop :=
  (center_crop_to_aspect w h a).elim (|(w : ℚ) - (h : ℚ) * a| ≤ 1) (boxOk w h a)

/-- C5 (amended): for positive aspects that round to at least one pixel in
the cropped dimension (`1/2 < h*a` and `a < 2*w`) on images of height at
most 10^6, the crop box is fully contained in the source with nonempty
extent, and the output aspect matches the target within one pixel. -/
theorem center_crop_box_in_bounds (w h : ℕ) (a : ℚ)
    (hw : 0 < w) (hh : 0 < h) (ha : 0 < a)
    (hwa : 1/2 < (h : ℚ) * a) (hha : a < 2 * (w : ℚ)) (hmax : h ≤ 1000000) :
    cropBoxOk w h a := by
  have hw' : (0 : ℚ) < (w : ℚ) := by exact_mod_cast hw
  have hh' : (0 : ℚ) < (h : ℚ) := by exact_mod_cast hh
  cases heq : center_crop_to_aspect w h a with
  | none =>
    unfold cropBoxOk
    rw [heq]
    simp only [Option.elim_none]
    have hb : |(w : ℚ) / (h : ℚ) - a| < TOL := (center_crop_none_iff w h a).mp heq
    have hsplit : (w : ℚ) - (h : ℚ) * a = (h : ℚ) * ((w : ℚ) / (h : ℚ) - a) := by
      field_simp
    rw [hsplit, abs_mul, abs_of_nonneg (le_of_lt hh')]
    have hcast : (h : ℚ) ≤ 1000000 := by exact_mod_cast hmax
    calc (h : ℚ) * |(w : ℚ) / (h : ℚ) - a| ≤ (h : ℚ) * TOL :=
          mul_le_mul_of_nonneg_left (le_of_lt hb) (le_of_lt hh')
      _ ≤ 1 := by rw [TOL]; linarith
  | some b =>
    unfold cropBoxOk
    rw [heq]
    simp only [Option.elim_some]
    obtain ⟨x0, y0, x1, y1⟩ := b
    unfold boxOk
    dsimp only
    have hnottol : ¬ |(w : ℚ) / (h : ℚ) - a| < TOL := by
      intro hcon
      rw [(center_crop_none_iff w h a).mpr hcon] at heq
      cases heq
    by_cases hlt : a < (w : ℚ) / (h : ℚ)
    · rw [center_crop_wide hnottol hlt] at heq
      simp only [Option.some.injEq, Prod.mk.injEq] at heq
      obtain ⟨hx0, hy0, hx1, hy1⟩ := heq
      have hnw1 : 1 ≤ pyRound ((h : ℚ) * a) := one_le_pyRound hwa
      have hnwle : pyRound ((h : ℚ) * a) ≤ (w : ℤ) := by
        refine pyRound_le_of_le ?_
        have : a * (h : ℚ) < (w : ℚ) := (lt_div_iff hh').mp hlt
        push_cast
        linarith
      refine ⟨by omega, by omega, by omega, by omega,
        by omega, by omega, Or.inl ?_⟩
      have hd : x1 - x0 = pyRound ((h : ℚ) * a) := by omega
      have hv : y1 - y0 = (h : ℤ) := by omega
      rw [hd, hv]
      have hnear := abs_pyRound_sub_le ((h : ℚ) * a)
      push_cast at hnear ⊢
      exact le_trans hnear (by norm_num)
    · have hcur : (w : ℚ) / (h : ℚ) < a := by
        rcases eq_or_lt_of_le (le_of_not_lt hlt) with heqa | hstrict
        · exfalso
          apply hnottol
          rw [← heqa]
          norm_num [TOL]
        · exact hstrict
      rw [center_crop_tall hnottol hlt] at heq
      simp only [Option.some.injEq, Prod.mk.injEq] at heq
      obtain ⟨hx0, hy0, hx1, hy1⟩ := heq
      have hnh1 : 1 ≤ pyRound ((w : ℚ) / a) := by
        refine one_le_pyRound ?_
        rw [lt_div_iff ha]
        linarith
      have hnhle : pyRound ((w : ℚ) / a) ≤ (h : ℤ) := by
        refine pyRound_le_of_le ?_
        have hwlt : (w : ℚ) < a * (h : ℚ) := (div_lt_iff hh').mp hcur
        rw [div_le_iff ha]
        push_cast
        nlinarith
      refine ⟨by omega, by omega, by omega, by omega,
        by omega, by omega, Or.inr ?_⟩
      have hd : y1 - y0 = pyRound ((w : ℚ) / a) := by omega
      have hv : x1 - x0 = (w : ℤ) := by omega
      rw [hd, hv]
      have hnear := abs_pyRound_sub_le ((w : ℚ) / a)
      push_cast at hnear ⊢
      exact le_trans hnear (by norm_num)

/-- Witness for C5: a 1000 × 500 source cropped to aspect 1 yields the
in-bounds box (250, 0, 750, 500). -/
theorem center_crop_box_in_bounds_witness : cropBoxOk 1000 500 1 :=
  center_crop_box_in_bounds 1000 500 1 (by norm_num) (by norm_num) (by norm_num)
    (by push_cast; norm_num) (by push_cast; norm_num) (by norm_num)

/-- Counterexample to C5 as stated: on a 100 × 100 source with target
aspect 1/1000 the rounded crop width is 0, so the computed box
(50, 0, 50, 100) is empty: no box with `x0 < x1` is produced. -/
theorem center_crop_box_degenerate :
    ¬ ∃ x0 y0 x1 y1, center_crop_to_aspect 100 100 (1/1000) =
        some (x0, y0, x1, y1) ∧ x0 < x1 := by
  have h1 : ¬ |((100 : ℕ) : ℚ) / ((100 : ℕ) : ℚ) - 1/1000| < TOL := by
    push_cast
    rw [show ((100 : ℚ) / 100 - 1/1000) = 999/1000 by norm_num,
      abs_of_nonneg (by norm_num)]
    norm_num [TOL]
  have h2 : (1/1000 : ℚ) < ((100 : ℕ) : ℚ) / ((100 : ℕ) : ℚ) := by
    push_cast
    norm_num
  have hc := center_crop_wide h1 h2
  have hr : pyRound (((100 : ℕ) : ℚ) * (1/1000)) = 0 := by
    refine pyRound_eq_of_lt_half ?_ ?_ <;> push_cast <;> norm_num
  rw [hr] at hc
  rintro ⟨x0, y0, x1, y1, heq, hlt⟩
  rw [hc] at heq
  simp only [Option.some.injEq, Prod.mk.injEq] at heq
  obtain ⟨e1, e2, e3, e4⟩ := heq
  omega

theorem ite_le_of_le {c : Prop} [Decidable c] {x y z : ℤ}
    (hx : x ≤ z) (hy : y ≤ z) : (if c then x else y) ≤ z := by
  split_ifs <;> assumption

theorem thumbnail_bounds (w h W H : ℕ)
    (hw : 0 < w) (hh : 0 < h) (hW : 0 < W) (hH : 0 < H) :
    1 ≤ (thumbnail w h W H).1 ∧ (thumbnail w h W H).1 ≤ (W : ℤ) ∧
    1 ≤ (thumbnail w h W H).2 ∧ (thumbnail w h W H).2 ≤ (H : ℤ) := by
  have hw' : (0 : ℚ) < (w : ℚ) := by exact_mod_cast hw
  have hh' : (0 : ℚ) < (h : ℚ) := by exact_mod_cast hh
  have hH' : (0 : ℚ) < (H : ℚ) := by exact_mod_cast hH
  unfold thumbnail
  by_cases hc : W ≥ w ∧ H ≥ h
  · rw [if_pos hc]
    dsimp only
    obtain ⟨hcw, hch⟩ := hc
    exact ⟨by exact_mod_cast hw, by exact_mod_cast hcw,
      by exact_mod_cast hh, by exact_mod_cast hch⟩
  · rw [if_neg hc]
    dsimp only
    by_cases hb : (w : ℚ) / (h : ℚ) ≤ (W : ℚ) / (H : ℚ)
    · rw [if_pos hb]
      dsimp only
      have hqle : (H : ℚ) * ((w : ℚ) / (h : ℚ)) ≤ (W : ℚ) := by
        have := (le_div_iff hH').mp hb
        linarith
      have hceil : ⌈(H : ℚ) * ((w : ℚ) / (h : ℚ))⌉ ≤ (W : ℤ) :=
        Int.ceil_le.mpr (by push_cast; linarith)
      have hfloor : ⌊(H : ℚ) * ((w : ℚ) / (h : ℚ))⌋ ≤ (W : ℤ) :=
        le_trans (Int.floor_le_ceil _) hceil
      exact ⟨le_max_right _ _, max_le (ite_le_of_le hfloor hceil)
        (by exact_mod_cast hW), by exact_mod_cast hH, le_refl _⟩
    · rw [if_neg hb]
      dsimp only
      have haspect : (0 : ℚ) < (w : ℚ) / (h : ℚ) := div_pos hw' hh'
      have hblt : (W : ℚ) / (H : ℚ) < (w : ℚ) / (h : ℚ) := not_le.mp hb
      have hqlt : (W : ℚ) / ((w : ℚ) / (h : ℚ)) < (H : ℚ) := by
        rw [div_lt_iff haspect]
        have := (div_lt_iff hH').mp hblt
        linarith
      have hceil : ⌈(W : ℚ) / ((w : ℚ) / (h : ℚ))⌉ ≤ (H : ℤ) :=
        Int.ceil_le.mpr (by push_cast; linarith)
      have hfloor : ⌊(W : ℚ) / ((w : ℚ) / (h : ℚ))⌋ ≤ (H : ℤ) :=
        le_trans (Int.floor_le_ceil _) hceil
      exact ⟨by exact_mod_cast hW, le_refl _, le_max_right _ _,
        max_le (ite_le_of_le hfloor hceil) (by exact_mod_cast hH)⟩

theorem thumbnail_matching (w h W H : ℕ)
    (hw : 0 < w) (hh : 0 < h) (hW : 0 < W) (hH : 0 < H)
    (hasp : w * H = W * h) (hle : W ≤ w) :
    thumbnail w h W H = ((W : ℤ), (H : ℤ)) := by
  have hh' : (0 : ℚ) < (h : ℚ) := by exact_mod_cast hh
  have hH' : (0 : ℚ) < (H : ℚ) := by exact_mod_cast hH
  have haq : (w : ℚ) * (H : ℚ) = (W : ℚ) * (h : ℚ) := by exact_mod_cast hasp
  have haspeq : (w : ℚ) / (h : ℚ) = (W : ℚ) / (H : ℚ) := by
    rw [div_eq_div_iff hh'.ne' hH'.ne']
    linarith
  rcases lt_or_eq_of_le hle with hlt | heqw
  · have hcond : ¬ (W ≥ w ∧ H ≥ h) := by
      rintro ⟨hge, _⟩
      omega
    unfold thumbnail
    rw [if_neg hcond]
    dsimp only
    rw [if_pos (le_of_eq haspeq)]
    have hq : (H : ℚ) * ((w : ℚ) / (h : ℚ)) = ((W : ℤ) : ℚ) := by
      rw [haspeq, mul_comm, div_mul_cancel₀ _ hH'.ne']
      push_cast
      ring
    rw [hq, Int.floor_intCast, Int.ceil_intCast, if_pos (le_refl _)]
    rw [max_eq_left (by exact_mod_cast hW : (1 : ℤ) ≤ ((W : ℕ) : ℤ))]
  · have hHh : H = h := by
      rw [heqw] at hasp
      exact Nat.eq_of_mul_eq_mul_left hw (by omega)
    unfold thumbnail
    rw [if_pos ⟨by omega, by omega⟩, heqw, hHh]

/-- C3 (amended): when the source aspect exactly matches the target aspect
and the source is at least as large as the target (`W ≤ w`, equivalently
`H ≤ h`), the thumbnail fills the whole canvas and both paste offsets are
zero; a strictly smaller matching-aspect source is pasted unscaled with
positive padding, because a thumbnail never enlarges. -/
theorem letterbox_matching_aspect_no_padding (w h W H : ℕ) (fill : ℤ × ℤ × ℤ)
    (hw : 0 < w) (hh : 0 < h) (hW : 0 < W) (hH : 0 < H)
    (hasp : w * H = W * h) (hle : W ≤ w) :
    (letterbox_to_aspect w h W H fill).scaled_w = (W : ℤ) ∧
    (letterbox_to_aspect w h W H fill).scaled_h = (H : ℤ) ∧
    (letterbox_to_aspect w h W H fill).x = 0 ∧
    (letterbox_to_aspect w h W H fill).y = 0 := by
  have hth := thumbnail_matching w h W H hw hh hW hH hasp hle
  refine ⟨?_, ?_, ?_, ?_⟩
  · show (thumbnail w h W H).1 = (W : ℤ)
    rw [hth]
  · show (thumbnail w h W H).2 = (H : ℤ)
    rw [hth]
  · show ((W : ℤ) - (thumbnail w h W H).1) / 2 = 0
    rw [hth]
    omega
  · show ((H : ℤ) - (thumbnail w h W H).2) / 2 = 0
    rw [hth]
    omega

/-- Witness for C3: an 800 × 400 source letterboxed to (400, 200) is scaled
to the full canvas with zero offsets. -/
theorem letterbox_matching_aspect_no_padding_witness :
    (letterbox_to_aspect 800 400 400 200 (0, 0, 0)).scaled_w = 400 ∧
    (letterbox_to_aspect 800 400 400 200 (0, 0, 0)).scaled_h = 200 ∧
    (letterbox_to_aspect 800 400 400 200 (0, 0, 0)).x = 0 ∧
    (letterbox_to_aspect 800 400 400 200 (0, 0, 0)).y = 0 := by
  have hres := letterbox_matching_aspect_no_padding 800 400 400 200 (0, 0, 0)
    (by norm_num) (by norm_num) (by norm_num) (by norm_num) (by norm_num)
    (by norm_num)
  exact ⟨by exact_mod_cast hres.1, by exact_mod_cast hres.2.1,
    hres.2.2.1, hres.2.2.2⟩

/-- Counterexample to C3 as stated: a 100 × 100 source has exactly the
aspect of a (400, 400) target and is smaller than it in both dimensions,
yet `thumbnail` leaves it at 100 × 100 and the paste offsets are
(150, 150), not zero: a padding border appears. -/
theorem letterbox_small_matching_source_padded :
    (100 : ℚ) / 100 = (400 : ℚ) / 400 ∧
    (letterbox_to_aspect 100 100 400 400 (0, 0, 0)).x = 150 ∧
    (letterbox_to_aspect 100 100 400 400 (0, 0, 0)).y = 150 ∧
    (150 : ℤ) ≠ 0 := by
  have hth : thumbnail 100 100 400 400 = ((100 : ℤ), (100 : ℤ)) := by
    unfold thumbnail
    rw [if_pos (by omega)]
    decide
  refine ⟨by norm_num, ?_, ?_, by decide⟩
  · show (((400 : ℕ) : ℤ) - (thumbnail 100 100 400 400).1) / 2 = 150
    rw [hth]
    decide
  · show (((400 : ℕ) : ℤ) - (thumbnail 100 100 400 400).2) / 2 = 150
    rw [hth]
    decide

/-- C7: letterboxing always produces a canvas of exactly the target size
holding the fill color, with the scaled source at most the target in both
axes (and at least one pixel), pasted at the centered offsets
`x = (W - scaled_w) // 2 ≥ 0` and `y = (H - scaled_h) // 2 ≥ 0`; the
300 × 600 source letterboxed to (400, 400) is scaled to (200, 400) and
pasted at x = 100, y = 0. -/
theorem letterbox_canvas_exact (w h W H : ℕ) (fill : ℤ × ℤ × ℤ)
    (hw : 0 < w) (hh : 0 < h) (hW : 0 < W) (hH : 0 < H) :
    ((letterbox_to_aspect w h W H fill).canvas_w = (W : ℤ) ∧
      (letterbox_to_aspect w h W H fill).canvas_h = (H : ℤ) ∧
      (letterbox_to_aspect w h W H fill).fill = fill ∧
      1 ≤ (letterbox_to_aspect w h W H fill).scaled_w ∧
      (letterbox_to_aspect w h W H fill).scaled_w ≤ (W : ℤ) ∧
      1 ≤ (letterbox_to_aspect w h W H fill).scaled_h ∧
      (letterbox_to_aspect w h W H fill).scaled_h ≤ (H : ℤ) ∧
      (letterbox_to_aspect w h W H fill).x =
        ((W : ℤ) - (letterbox_to_aspect w h W H fill).scaled_w) / 2 ∧
      0 ≤ (letterbox_to_aspect w h W H fill).x ∧
      (letterbox_to_aspect w h W H fill).y =
        ((H : ℤ) - (letterbox_to_aspect w h W H fill).scaled_h) / 2 ∧
      0 ≤ (letterbox_to_aspect w h W H fill).y) ∧
    ((letterbox_to_aspect 300 600 400 400 (0, 0, 0)).scaled_w = 200 ∧
      (letterbox_to_aspect 300 600 400 400 (0, 0, 0)).scaled_h = 400 ∧
      (letterbox_to_aspect 300 600 400 400 (0, 0, 0)).x = 100 ∧
      (letterbox_to_aspect 300 600 400 400 (0, 0, 0)).y = 0) := by
  obtain ⟨t1, t2, t3, t4⟩ := thumbnail_bounds w h W H hw hh hW hH
  have hth : thumbnail 300 600 400 400 = ((200 : ℤ), (400 : ℤ)) := by
    unfold thumbnail
    rw [if_neg (by omega)]
    dsimp only
    rw [if_pos (by push_cast; norm_num),
      show ((400 : ℕ) : ℚ) * (((300 : ℕ) : ℚ) / ((600 : ℕ) : ℚ)) =
        ((200 : ℤ) : ℚ) by push_cast; norm_num,
      Int.floor_intCast, Int.ceil_intCast, if_pos (le_refl _)]
    decide
  refine ⟨⟨rfl, rfl, rfl, t1, t2, t3, t4, rfl, ?_, rfl, ?_⟩, ?_, ?_, ?_, ?_⟩
  · show 0 ≤ ((W : ℤ) - (thumbnail w h W H).1) / 2
    omega
  · show 0 ≤ ((H : ℤ) - (thumbnail w h W H).2) / 2
    omega
  · show (thumbnail 300 600 400 400).1 = 200
    rw [hth]
  · show (thumbnail 300 600 400 400).2 = 400
    rw [hth]
  · show (((400 : ℕ) : ℤ) - (thumbnail 300 600 400 400).1) / 2 = 100
    rw [hth]
    decide
  · show (((400 : ℕ) : ℤ) - (thumbnail 300 600 400 400).2) / 2 = 0
    rw [hth]
    decide

/-- Witness for C7 at the concrete 300 × 600 into (400, 400) scenario. -/
theorem letterbox_canvas_exact_witness :
    (letterbox_to_aspect 300 600 400 400 (0, 0, 0)).canvas_w = ((400 : ℕ) : ℤ) ∧
    (letterbox_to_aspect 300 600 400 400 (0, 0, 0)).scaled_w = 200 ∧
    (letterbox_to_aspect 300 600 400 400 (0, 0, 0)).x = 100 ∧
    (letterbox_to_aspect 300 600 400 400 (0, 0, 0)).y = 0 := by
  have hres := letterbox_canvas_exact 300 600 400 400 (0, 0, 0)
    (by norm_num) (by norm_num) (by norm_num) (by norm_num)
  exact ⟨hres.1.1, hres.2.1, hres.2.2.2.1, hres.2.2.2.2⟩

end ImageLoraPrep
